import Mathlib

/-!
Shallow embedding of the didder post-processing and animated-GIF assembly
pipeline (subcommand_helpers.go and subcommands.go of makew0rld/didder),
together with proofs about it.

Images are modelled as either paletted buffers (an index table over a color
table, Go image.Paletted) or generic NRGBA pixel buffers (Go draw.Image /
image.NRGBA).  Pixel buffers are row-major lists; machine integers are Nat
or Int; the float arithmetic of the GIF delay computation is modelled with
exact rationals, and the two float expressions of the nearest-neighbor
resampler, which are mathematically exact at the inputs that arise, are
modelled with exact natural division.  File output and image decoding are
external collaborators and are not modelled; the dithering capability is an
explicit function parameter, as the repository treats it as an opaque
external library.
-/

namespace Didder

/-- Eight-bit non-premultiplied RGBA color, Go color.NRGBA.  The parsed palettes
of subcommands.go are guaranteed to hold only this type. -/
structure Color where
  R : Nat
  G : Nat
  B : Nat
  A : Nat
deriving DecidableEq

/-- Zero color, used only as an out-of-range default for list lookups. -/
def d0 : Color := ⟨0, 0, 0, 0⟩

/-- The comparison inside getRecolor (subcommand_helpers.go line 295):
two colors match when their R, G and B fields are equal; alpha is ignored. -/
def rgbMatch (pc c : Color) : Bool :=
  pc.R == c.R && pc.G == c.G && pc.B == c.B

/-- The search loop of getRecolor (subcommand_helpers.go lines 293-301):
index of the first palette entry whose RGB equals the given color, if any. -/
def findPalIdx (pal : List Color) (c : Color) : Option Nat :=
  match pal with
  | [] => none
  | pc :: rest => if rgbMatch pc c then some 0 else (findPalIdx rest c).map (· + 1)

/-- getRecolor (subcommand_helpers.go lines 289-304): map a pixel color to
the recolor palette entry at the index of the first RGB-matching entry of
the dither palette; when nothing matches, fall back to the first recolor
entry. -/
def getRecolor (pal recol : List Color) (c : Color) : Color :=
  match findPalIdx pal c with
  | some i => recol.getD i d0
  | none => recol.getD 0 d0

/-- Go image.Paletted: a row-major table of palette indices over a color
table.  pix has length width * height. -/
structure Paletted where
  width : Nat
  height : Nat
  palette : List Color
  pix : List Nat
deriving DecidableEq

/-- A generic drawable NRGBA buffer (Go image.NRGBA or the image.RGBA copy
made by copyOfImage), row-major. -/
structure Generic where
  width : Nat
  height : Nat
  pix : List Color
deriving DecidableEq

/-- An image is either paletted or generic, mirroring the runtime type
test `src.(*image.Paletted)` in recolor and postProcImage. -/
inductive Image where
  | paletted (p : Paletted)
  | generic (g : Generic)
deriving DecidableEq

/-- Color of a paletted image at pixel (x, y): palette entry at the stored
index. -/
def Paletted.colorAt (p : Paletted) (x y : Nat) : Color :=
  p.palette.getD (p.pix.getD (y * p.width + x) 0) d0

/-- Color of a generic image at pixel (x, y). -/
def Generic.colorAt (g : Generic) (x y : Nat) : Color :=
  g.pix.getD (y * g.width + x) d0

/-- copyOfImage (subcommand_helpers.go lines 267-271) applied to a paletted
source: a generic buffer holding the same colors at the same pixels.  (The
copy through an RGBA buffer is lossless here because dither palette colors
are fully opaque.) -/
def Paletted.toGeneric (p : Paletted) : Generic :=
  ⟨p.width, p.height, p.pix.map (fun i => p.palette.getD i d0)⟩

/-- The fast path of recolor (subcommand_helpers.go lines 307-314): only
the palette table is rewritten, entry by entry, through getRecolor. -/
def recolorFast (pal recol : List Color) (p : Paletted) : Paletted :=
  { p with palette := p.palette.map (getRecolor pal recol) }

/-- The slow path of recolor (subcommand_helpers.go lines 323-332): every
pixel of the buffer is rewritten through getRecolor. -/
def recolorSlow (pal recol : List Color) (g : Generic) : Generic :=
  { g with pix := g.pix.map (getRecolor pal recol) }

/-- recolor (subcommand_helpers.go lines 280-334): identity when no recolor
palette is configured; otherwise palette-table rewrite for paletted images
and full pixel scan for generic ones. -/
def recolor (pal recol : List Color) (img : Image) : Image :=
  if recol.length = 0 then img
  else
    match img with
    | .paletted p => .paletted (recolorFast pal recol p)
    | .generic g => .generic (recolorSlow pal recol g)

end Didder

namespace Didder

/-- Sixteen-bit premultiplied channel value, Go color.NRGBA.RGBA():
(v or v shifted left by 8) times alpha, divided by 255. -/
def nrgba16 (v a : Nat) : Nat := v * 257 * a / 255

/-- Go image/draw sqDiff: squared channel difference shifted right by 2.
The uint32 wraparound in the original is exact here because 16-bit channel
differences square to below 2 to the 32. -/
def sqDiff (a b : Nat) : Nat := (max a b - min a b) ^ 2 / 4

/-- Squared color distance used by drawPaletted in Go image/draw when a
resampled frame is redrawn into a paletted image: sum of sqDiff over the
16-bit premultiplied R, G, B, A channels. -/
def colorDist (x y : Color) : Nat :=
  sqDiff (nrgba16 x.R x.A) (nrgba16 y.R y.A) +
    sqDiff (nrgba16 x.G x.A) (nrgba16 y.G y.A) +
    sqDiff (nrgba16 x.B x.A) (nrgba16 y.B y.A) +
    sqDiff (x.A * 257) (y.A * 257)

/-- Best-so-far scan of drawPaletted: keep the current best index unless a
strictly smaller distance appears. -/
def paletteIndexAux (c : Color) : List Color → Nat → Nat → Nat → Nat
  | [], _, bestIdx, _ => bestIdx
  | p :: rest, i, bestIdx, bestD =>
    let dcur := colorDist p c
    if dcur < bestD then paletteIndexAux c rest (i + 1) i dcur
    else paletteIndexAux c rest (i + 1) bestIdx bestD

/-- Index of the first palette entry at minimal distance from the color,
as computed by Go image/draw drawPaletted (and color.Palette.Index). -/
def paletteIndex (pal : List Color) (c : Color) : Nat :=
  match pal with
  | [] => 0
  | p :: rest => paletteIndexAux c rest 1 0 (colorDist p c)

/-- Source coordinate of the nearest-neighbor resampler of the imaging
library: the integer part of (x + 1/2) * src / dst, clamped to src - 1.
The float expression is exact at these inputs, so natural division is
used. -/
def nnSrc (src dst x : Nat) : Nat := min ((2 * x + 1) * src / (2 * dst)) (src - 1)

/-- Output height chosen by imaging.Resize when called with height 0:
dstW * srcH / srcW rounded half up, at least 1 (aspect-ratio preservation). -/
def resizeHeight (srcW srcH dstW : Nat) : Nat :=
  max 1 ((2 * dstW * srcH + srcW) / (2 * srcW))

/-- Nearest-neighbor resample of a paletted image into a generic NRGBA
buffer, as imaging.Resize with the NearestNeighbor filter produces. -/
def Paletted.resizeNearest (p : Paletted) (dstW dstH : Nat) : Generic :=
  ⟨dstW, dstH,
    (List.range (dstW * dstH)).map (fun k =>
      p.colorAt (nnSrc p.width dstW (k % dstW)) (nnSrc p.height dstH (k / dstW)))⟩

/-- Nearest-neighbor resample of a generic image. -/
def Generic.resizeNearest (g : Generic) (dstW dstH : Nat) : Generic :=
  ⟨dstW, dstH,
    (List.range (dstW * dstH)).map (fun k =>
      g.colorAt (nnSrc g.width dstW (k % dstW)) (nnSrc g.height dstH (k / dstW)))⟩

/-- image.NewPaletted plus copyImage (subcommand_helpers.go lines 362-363):
redraw a generic buffer into a paletted image over the given palette; each
pixel is mapped to its nearest palette index by drawPaletted. -/
def rebuildPaletted (pal : List Color) (g : Generic) : Paletted :=
  ⟨g.width, g.height, pal, g.pix.map (paletteIndex pal)⟩

/-- The upscale branch of postProcImage for a paletted input: resize by the
integer factor (width times factor, height from the aspect ratio) and
rebuild a paletted image over the same palette table. -/
def upscaleP (f : Nat) (p : Paletted) : Paletted :=
  rebuildPaletted p.palette
    (p.resizeNearest (p.width * f) (resizeHeight p.width p.height (p.width * f)))

/-- The upscale branch of postProcImage for a generic input: resize only. -/
def upscaleG (f : Nat) (g : Generic) : Generic :=
  g.resizeNearest (g.width * f) (resizeHeight g.width g.height (g.width * f))

/-- postProcImage (subcommand_helpers.go lines 339-365): recolor, then, when
the upscale factor is not 1, nearest-neighbor resize; a paletted input with
a nonempty palette is rebuilt as a paletted image over the same palette. -/
def postProcImage (pal recol : List Color) (upscale : Nat) (img : Image) : Image :=
  let img := recolor pal recol img
  if upscale = 1 then img
  else
    match img with
    | .paletted p =>
      if p.palette.length = 0 then .generic (upscaleG upscale p.toGeneric)
      else .paletted (upscaleP upscale p)
    | .generic g => .generic (upscaleG upscale g)

/-- Width and height of an image, Go Bounds().Dx() and Dy().  All images of
the pipeline are zero-based, so rectangle equality is dimension equality. -/
def Image.dims : Image → Nat × Nat
  | .paletted p => (p.width, p.height)
  | .generic g => (g.width, g.height)

/-- The type assertion `.(*image.Paletted)` applied to the result of
postProcImage in the animated branch (subcommand_helpers.go lines 431, 454). -/
def Image.asPaletted : Image → Option Paletted
  | .paletted p => some p
  | .generic _ => none

/-- Per-frame GIF delay in centiseconds (subcommand_helpers.go line 398):
100 / fps rounded to the nearest integer, and at least 1.  The float
arithmetic is modelled exactly over the rationals; Go math.Round rounds
half away from zero, which for positive arguments agrees with Mathlib
round. -/
def gifDelay (fps : ℚ) : Int := max (round (100 / fps)) 1

/-- Translation of the user loop flag into the gif.GIF.LoopCount field
(subcommand_helpers.go lines 401-409): 1 becomes the sentinel -1, any other
nonzero value is decremented, 0 stays 0. -/
def gifLoopCount (loop : Nat) : Int :=
  if loop = 1 then -1
  else if loop ≠ 0 then (loop : Int) - 1
  else (loop : Int)

/-- Failure outcomes of processImages in animated mode.  sizeMismatch
models the error of subcommand_helpers.go lines 448-451 and 458-461, whose
message names the current input and the first input; fpsNotSet models line
387; assertFailed models a panic of the paletted type assertion, which
cannot occur for the nonempty palettes the pipeline guarantees. -/
inductive PErr where
  | fpsNotSet
  | assertFailed
  | sizeMismatch (current first : String)
deriving DecidableEq

/-- The accumulated animation, Go gif.GIF: frames, parallel per-frame
delays, and the translated loop count.  (The image config field carries no
claim and is not modelled.) -/
structure AnimGIF where
  frames : List Paletted
  delays : List Int
  loopCount : Int
deriving DecidableEq

/-- The later-frame half of the animated loop (subcommand_helpers.go lines
445-463), with frame 0 already processed: for each input, when upscale is 1
compare the raw input bounds against frame 0, otherwise dither,
post-process and compare the processed bounds against frame 0; a mismatch
stops the run with an error naming the current and the first input. -/
def animLoop (pal recol : List Color) (upscale : Nat) (ditherF : Generic → Paletted)
    (name0 : String) (frame0 : Paletted) :
    List (String × Generic) → Except PErr (List Paletted)
  | [] => .ok []
  | (name, g) :: rest =>
    if upscale = 1 ∧ ¬(g.width = frame0.width ∧ g.height = frame0.height) then
      .error (.sizeMismatch name name0)
    else
      match (postProcImage pal recol upscale (.paletted (ditherF g))).asPaletted with
      | none => .error .assertFailed
      | some fr =>
        if upscale ≠ 1 ∧ ¬(fr.width = frame0.width ∧ fr.height = frame0.height) then
          .error (.sizeMismatch name name0)
        else
          match animLoop pal recol upscale ditherF name0 frame0 rest with
          | .error e => .error e
          | .ok fs => .ok (fr :: fs)

/-- The animated branch of processImages (subcommand_helpers.go lines
383-463 and 574): require the fps flag, compute one delay per frame and the
translated loop count, process frame 0, run the later-frame loop, and only
when every frame succeeded assemble the animation for encoding. -/
def runAnimated (pal recol : List Color) (upscale : Nat) (ditherF : Generic → Paletted)
    (inputs : List (String × Generic)) (fps : ℚ) (fpsSet : Bool) (loop : Nat) :
    Except PErr AnimGIF :=
  if ¬fpsSet then .error .fpsNotSet
  else
    match inputs with
    | [] => .ok ⟨[], [], gifLoopCount loop⟩
    | (name0, g0) :: rest =>
      match (postProcImage pal recol upscale (.paletted (ditherF g0))).asPaletted with
      | none => .error .assertFailed
      | some frame0 =>
        match animLoop pal recol upscale ditherF name0 frame0 rest with
        | .error e => .error e
        | .ok fs =>
          .ok ⟨frame0 :: fs, inputs.map (fun _ => gifDelay fps), gifLoopCount loop⟩

/-- The mode decision of processImages (subcommand_helpers.go line 376):
animated exactly when there is more than one input, the resolved output
format is GIF, and the output target is not a directory. -/
def isAnimGIF (numInputs : Nat) (outFormat : String) (outIsDir : Bool) : Bool :=
  decide (1 < numInputs) && (outFormat == "gif") && !outIsDir

/-- Outcome of one processImages run: either one animated container, or one
independent output per input (whose per-input encoding and file writing are
external input/output and are abstracted to the list of input names). -/
inductive RunOutcome where
  | animated (a : Except PErr AnimGIF)
  | independent (names : List String)

/-- processImages (subcommand_helpers.go lines 369-581): the mode is
decided once, before any frame is processed; animated mode accumulates all
frames into one container, independent mode writes each input on its own. -/
def processImages (pal recol : List Color) (upscale : Nat) (ditherF : Generic → Paletted)
    (outFormat : String) (outIsDir : Bool) (inputs : List (String × Generic))
    (fps : ℚ) (fpsSet : Bool) (loop : Nat) : RunOutcome :=
  if isAnimGIF inputs.length outFormat outIsDir then
    .animated (runAnimated pal recol upscale ditherF inputs fps fpsSet loop)
  else
    .independent (inputs.map Prod.fst)

/-- Whether a run outcome is the animated mode. -/
def RunOutcome.isAnimated : RunOutcome → Bool
  | .animated _ => true
  | .independent _ => false

/-- The validated configuration produced by preProcess: the dither palette,
the recolor palette (empty when unset), and the normalized upscale factor. -/
structure Config where
  palette : List Color
  recolorPalette : List Color
  upscale : Nat
  postProcNeeded : Bool
deriving DecidableEq

/-- The palette, recolor and upscale portion of preProcess (subcommands.go
lines 108-124 and 223-229, 243-245): reject palettes of fewer than two
colors, reject a set recolor palette whose length differs from the palette,
and normalize a zero upscale flag to 1. -/
def preProcess (pal recol : List Color) (recolorSet : Bool) (upscaleFlag : Nat) :
    Except String Config :=
  if pal.length < 2 then .error "the palette must have at least two colors"
  else if recolorSet ∧ recol.length ≠ pal.length then
    .error "recolor palette must have the same number of colors as the initial palette"
  else
    .ok ⟨pal, if recolorSet then recol else [],
      if upscaleFlag = 0 then 1 else upscaleFlag,
      decide ((if recolorSet then recol else []).length ≠ 0 ∨
        1 < (if upscaleFlag = 0 then 1 else upscaleFlag))⟩

/-- Dimensions of the dithered-and-post-processed frame produced from one
input image; this is what the claim calls the post-processed bounds of the
frame, upscale included. -/
def postBounds (pal recol : List Color) (upscale : Nat) (ditherF : Generic → Paletted)
    (g : Generic) : Nat × Nat :=
  (postProcImage pal recol upscale (.paletted (ditherF g))).dims

/-! Helper lemmas -/

lemma getD_map_of_lt {α β : Type} (f : α → β) (l : List α) (k : Nat) (d : α) (e : β)
    (hk : k < l.length) : (l.map f).getD k e = f (l.getD k d) := by
  rw [List.getD_eq_getElem l d hk,
    List.getD_eq_getElem (l.map f) e (by simpa using hk), List.getElem_map]

lemma getD_mem_of_lt {α : Type} (l : List α) (k : Nat) (d : α) (hk : k < l.length) :
    l.getD k d ∈ l := by
  rw [List.getD_eq_getElem l d hk]
  exact List.getElem_mem hk

lemma grid_idx_lt {x y w h : Nat} (hx : x < w) (hy : y < h) : y * w + x < w * h := by
  calc y * w + x < y * w + w := by omega
    _ = (y + 1) * w := by ring
    _ ≤ h * w := Nat.mul_le_mul_right w (by omega)
    _ = w * h := Nat.mul_comm h w

/-- findPalIdx ignores the alpha channel of the probed color. -/
lemma findPalIdx_rgb (pal : List Color) (c c' : Color)
    (hR : c.R = c'.R) (hG : c.G = c'.G) (hB : c.B = c'.B) :
    findPalIdx pal c = findPalIdx pal c' := by
  induction pal with
  | nil => rfl
  | cons pc rest ih => simp [findPalIdx, rgbMatch, hR, hG, hB, ih]

/-- findPalIdx returns the first RGB-matching index. -/
lemma findPalIdx_first (pal : List Color) (c : Color) (j : Nat)
    (hj : j < pal.length)
    (hbefore : ∀ k, k < j → rgbMatch (pal.getD k d0) c = false)
    (hmatch : rgbMatch (pal.getD j d0) c = true) :
    findPalIdx pal c = some j := by
  induction pal generalizing j with
  | nil => simp at hj
  | cons pc rest ih =>
    cases j with
    | zero =>
      simp only [List.getD_cons_zero] at hmatch
      simp [findPalIdx, hmatch]
    | succ j' =>
      have h0 : rgbMatch pc c = false := by
        have := hbefore 0 (Nat.succ_pos j')
        simpa using this
      have hrest : findPalIdx rest c = some j' := by
        apply ih
        · simpa using hj
        · intro k hk
          have := hbefore (k + 1) (by omega)
          simpa using this
        · simpa using hmatch
      simp [findPalIdx, h0, hrest]

/-- findPalIdx finds nothing when no entry RGB-matches. -/
lemma findPalIdx_none (pal : List Color) (c : Color)
    (h : ∀ pc ∈ pal, rgbMatch pc c = false) :
    findPalIdx pal c = none := by
  induction pal with
  | nil => rfl
  | cons pc rest ih =>
    have h0 : rgbMatch pc c = false := h pc (List.mem_cons_self pc rest)
    have hrest := ih fun q hq => h q (List.mem_cons_of_mem pc hq)
    simp [findPalIdx, h0, hrest]

/-- recolor never changes image dimensions: the fast path touches only the
palette table and the slow path rewrites pixels in place. -/
lemma recolor_dims (pal recol : List Color) (img : Image) :
    (recolor pal recol img).dims = img.dims := by
  unfold recolor
  by_cases h : recol.length = 0
  · rw [if_pos h]
  · rw [if_neg h]
    cases img with
    | paletted p => rfl
    | generic g => rfl

/-- recolor keeps paletted images paletted, preserving dimensions and
palette-table length. -/
lemma recolor_paletted (pal recol : List Color) (p : Paletted) :
    ∃ q, recolor pal recol (.paletted p) = .paletted q ∧ q.width = p.width ∧
      q.height = p.height ∧ q.palette.length = p.palette.length := by
  unfold recolor
  by_cases h : recol.length = 0
  · exact ⟨p, by rw [if_pos h], rfl, rfl, rfl⟩
  · exact ⟨recolorFast pal recol p, by rw [if_neg h], rfl, rfl, by simp [recolorFast]⟩

/-- With factor f the aspect-preserving height of a width-scaled image is
exactly f times the source height. -/
lemma resizeHeight_mul (W H f : Nat) (hW : 0 < W) (hH : 0 < H) (hf : 0 < f) :
    resizeHeight W H (W * f) = f * H := by
  unfold resizeHeight
  have h1 : 2 * (W * f) * H + W = W * (2 * (f * H) + 1) := by ring
  have h2 : 2 * W = W * 2 := by ring
  rw [h1, h2, Nat.mul_div_mul_left _ _ hW]
  have h3 : (2 * (f * H) + 1) / 2 = f * H := by omega
  rw [h3]
  have : 0 < f * H := Nat.mul_pos hf hH
  omega

/-- postProcImage keeps a nonempty-palette paletted image paletted, and its
dimensions are either unchanged (factor 1) or scaled. -/
lemma postProc_paletted_some (pal recol : List Color) (f : Nat) (p : Paletted)
    (hp : p.palette ≠ []) :
    ∃ q, postProcImage pal recol f (.paletted p) = .paletted q ∧
      ((f = 1 ∧ q.width = p.width ∧ q.height = p.height) ∨
       (f ≠ 1 ∧ q.width = p.width * f ∧
         q.height = resizeHeight p.width p.height (p.width * f))) := by
  obtain ⟨p', hp', hw, hh, hplen⟩ := recolor_paletted pal recol p
  have hne : ¬p'.palette.length = 0 := by
    rw [hplen]
    simpa [List.length_eq_zero] using hp
  simp only [postProcImage]
  rw [hp']
  by_cases hf : f = 1
  · rw [if_pos hf]
    exact ⟨p', rfl, .inl ⟨hf, hw, hh⟩⟩
  · rw [if_neg hf]
    refine ⟨upscaleP f p', by simp only [if_neg hne], .inr ⟨hf, ?_, ?_⟩⟩
    · simp [upscaleP, rebuildPaletted, Paletted.resizeNearest, hw]
    · simp [upscaleP, rebuildPaletted, Paletted.resizeNearest, hw, hh]

/-- The post-processed bounds of a frame made from one input: unchanged at
factor 1, and multiplied by the factor otherwise. -/
lemma postBounds_eq (pal recol : List Color) (f : Nat) (ditherF : Generic → Paletted)
    (hdW : ∀ g, (ditherF g).width = g.width) (hdH : ∀ g, (ditherF g).height = g.height)
    (hdP : ∀ g, (ditherF g).palette = pal) (hpal : pal ≠ []) (hf : 0 < f)
    (g : Generic) (hw : 0 < g.width) (hh : 0 < g.height) :
    postBounds pal recol f ditherF g
      = if f = 1 then (g.width, g.height) else (g.width * f, f * g.height) := by
  obtain ⟨q, hq, hcases⟩ :=
    postProc_paletted_some pal recol f (ditherF g) (by rw [hdP]; exact hpal)
  unfold postBounds
  rw [hq]
  rcases hcases with ⟨hf1, hqw, hqh⟩ | ⟨hf1, hqw, hqh⟩
  · rw [if_pos hf1]
    simp [Image.dims, hqw, hqh, hdW, hdH]
  · rw [if_neg hf1]
    have hrh : resizeHeight (ditherF g).width (ditherF g).height ((ditherF g).width * f)
        = f * g.height := by
      rw [hdW, hdH]
      exact resizeHeight_mul _ _ _ hw hh hf
    show (q.width, q.height) = _
    rw [hqh, hrh, hqw, hdW]

/-- On inputs whose post-processed bounds all match frame 0, the
later-frame loop accepts every frame. -/
lemma animLoop_ok (pal recol : List Color) (f : Nat) (ditherF : Generic → Paletted)
    (hdW : ∀ g, (ditherF g).width = g.width) (hdH : ∀ g, (ditherF g).height = g.height)
    (hdP : ∀ g, (ditherF g).palette = pal) (hpal : pal ≠ []) (hf : 0 < f)
    (name0 : String) (g0 : Generic) (hw0 : 0 < g0.width) (hh0 : 0 < g0.height)
    (frame0 : Paletted)
    (hf0 : (frame0.width, frame0.height) = postBounds pal recol f ditherF g0)
    (rest : List (String × Generic)) :
    (∀ q ∈ rest, 0 < q.2.width ∧ 0 < q.2.height) →
    (∀ q ∈ rest, postBounds pal recol f ditherF q.2 = postBounds pal recol f ditherF g0) →
    ∃ fs, animLoop pal recol f ditherF name0 frame0 rest = .ok fs := by
  induction rest with
  | nil =>
    intro _ _
    exact ⟨[], rfl⟩
  | cons hd tl ih =>
    intro hpos hmatch
    obtain ⟨name, g⟩ := hd
    have hpg := hpos (name, g) (List.mem_cons_self _ _)
    have hmg := hmatch (name, g) (List.mem_cons_self _ _)
    have hbg := postBounds_eq pal recol f ditherF hdW hdH hdP hpal hf g hpg.1 hpg.2
    have hb0 := postBounds_eq pal recol f ditherF hdW hdH hdP hpal hf g0 hw0 hh0
    obtain ⟨q, hq, -⟩ :=
      postProc_paletted_some pal recol f (ditherF g) (by rw [hdP]; exact hpal)
    have hqd : postBounds pal recol f ditherF g = (q.width, q.height) := by
      unfold postBounds
      rw [hq]
      rfl
    have hqeq : q.width = frame0.width ∧ q.height = frame0.height := by
      have hp : (q.width, q.height) = (frame0.width, frame0.height) := by
        rw [← hqd, hmg, ← hf0]
      exact ⟨congrArg Prod.fst hp, congrArg Prod.snd hp⟩
    have hcond1 : ¬(f = 1 ∧ ¬(g.width = frame0.width ∧ g.height = frame0.height)) := by
      rintro ⟨hf1, hne⟩
      apply hne
      have h1 : postBounds pal recol f ditherF g = (g.width, g.height) := by
        rw [hbg, if_pos hf1]
      have hp : (g.width, g.height) = (frame0.width, frame0.height) := by
        rw [← h1, hmg, ← hf0]
      exact ⟨congrArg Prod.fst hp, congrArg Prod.snd hp⟩
    have hcond2 : ¬(f ≠ 1 ∧ ¬(q.width = frame0.width ∧ q.height = frame0.height)) := by
      rintro ⟨-, hne⟩
      exact hne hqeq
    obtain ⟨fs, hfs⟩ := ih (fun r hr => hpos r (List.mem_cons_of_mem _ hr))
      (fun r hr => hmatch r (List.mem_cons_of_mem _ hr))
    refine ⟨q :: fs, ?_⟩
    simp only [animLoop]
    rw [if_neg hcond1, hq]
    simp only [Image.asPaletted]
    rw [if_neg hcond2, hfs]

/-- When the first input with mismatched post-processed bounds is reached,
the later-frame loop stops with an error naming that input and the first
input. -/
lemma animLoop_err (pal recol : List Color) (f : Nat) (ditherF : Generic → Paletted)
    (hdW : ∀ g, (ditherF g).width = g.width) (hdH : ∀ g, (ditherF g).height = g.height)
    (hdP : ∀ g, (ditherF g).palette = pal) (hpal : pal ≠ []) (hf : 0 < f)
    (name0 : String) (g0 : Generic) (hw0 : 0 < g0.width) (hh0 : 0 < g0.height)
    (frame0 : Paletted)
    (hf0 : (frame0.width, frame0.height) = postBounds pal recol f ditherF g0)
    (x : String × Generic) (hxp : 0 < x.2.width ∧ 0 < x.2.height)
    (hx : postBounds pal recol f ditherF x.2 ≠ postBounds pal recol f ditherF g0)
    (l2 : List (String × Generic)) :
    ∀ l1, (∀ q ∈ l1, 0 < q.2.width ∧ 0 < q.2.height) →
      (∀ q ∈ l1, postBounds pal recol f ditherF q.2 = postBounds pal recol f ditherF g0) →
      animLoop pal recol f ditherF name0 frame0 (l1 ++ x :: l2)
        = .error (.sizeMismatch x.1 name0) := by
  intro l1
  induction l1 with
  | nil =>
    intro _ _
    obtain ⟨xn, xg⟩ := x
    have hbg := postBounds_eq pal recol f ditherF hdW hdH hdP hpal hf xg hxp.1 hxp.2
    by_cases hf1 : f = 1
    · have hcond : f = 1 ∧ ¬(xg.width = frame0.width ∧ xg.height = frame0.height) := by
        refine ⟨hf1, ?_⟩
        rintro ⟨hw, hh⟩
        exact hx (by rw [hbg, if_pos hf1, hw, hh, hf0])
      simp only [List.nil_append, animLoop]
      rw [if_pos hcond]
    · have hcond1 : ¬(f = 1 ∧ ¬(xg.width = frame0.width ∧ xg.height = frame0.height)) := by
        rintro ⟨h1, -⟩
        exact hf1 h1
      obtain ⟨q, hq, -⟩ :=
        postProc_paletted_some pal recol f (ditherF xg) (by rw [hdP]; exact hpal)
      have hqd : postBounds pal recol f ditherF xg = (q.width, q.height) := by
        unfold postBounds
        rw [hq]
        rfl
      have hcond2 : f ≠ 1 ∧ ¬(q.width = frame0.width ∧ q.height = frame0.height) := by
        refine ⟨hf1, ?_⟩
        rintro ⟨hw, hh⟩
        exact hx (by rw [hqd, hw, hh, hf0])
      simp only [List.nil_append, animLoop]
      rw [if_neg hcond1, hq]
      simp only [Image.asPaletted]
      rw [if_pos hcond2]
  | cons hd tl ih =>
    intro hpos hmatch
    obtain ⟨name, g⟩ := hd
    have hpg := hpos (name, g) (List.mem_cons_self _ _)
    have hmg := hmatch (name, g) (List.mem_cons_self _ _)
    have hbg := postBounds_eq pal recol f ditherF hdW hdH hdP hpal hf g hpg.1 hpg.2
    obtain ⟨q, hq, -⟩ :=
      postProc_paletted_some pal recol f (ditherF g) (by rw [hdP]; exact hpal)
    have hqd : postBounds pal recol f ditherF g = (q.width, q.height) := by
      unfold postBounds
      rw [hq]
      rfl
    have hqeq : q.width = frame0.width ∧ q.height = frame0.height := by
      have hp : (q.width, q.height) = (frame0.width, frame0.height) := by
        rw [← hqd, hmg, ← hf0]
      exact ⟨congrArg Prod.fst hp, congrArg Prod.snd hp⟩
    have hcond1 : ¬(f = 1 ∧ ¬(g.width = frame0.width ∧ g.height = frame0.height)) := by
      rintro ⟨hf1, hne⟩
      apply hne
      have h1 : postBounds pal recol f ditherF g = (g.width, g.height) := by
        rw [hbg, if_pos hf1]
      have hp : (g.width, g.height) = (frame0.width, frame0.height) := by
        rw [← h1, hmg, ← hf0]
      exact ⟨congrArg Prod.fst hp, congrArg Prod.snd hp⟩
    have hcond2 : ¬(f ≠ 1 ∧ ¬(q.width = frame0.width ∧ q.height = frame0.height)) := by
      rintro ⟨-, hne⟩
      exact hne hqeq
    have hrec := ih (fun r hr => hpos r (List.mem_cons_of_mem _ hr))
      (fun r hr => hmatch r (List.mem_cons_of_mem _ hr))
    simp only [List.cons_append, animLoop]
    rw [if_neg hcond1, hq]
    simp only [Image.asPaletted, List.append_eq]
    rw [if_neg hcond2, hrec]

lemma sqDiff_self (a : Nat) : sqDiff a a = 0 := by
  simp [sqDiff]

lemma colorDist_self (c : Color) : colorDist c c = 0 := by
  simp [colorDist, sqDiff_self]

lemma sqDiff_pos_of_scaled (a b : Nat) (h : a ≠ b) : 0 < sqDiff (a * 257) (b * 257) := by
  unfold sqDiff
  have h1 : max (a * 257) (b * 257) = max a b * 257 := (max_mul_of_nonneg a b (by omega)).symm
  have h2 : min (a * 257) (b * 257) = min a b * 257 := (min_mul_of_nonneg a b (by omega)).symm
  rw [h1, h2, (Nat.sub_mul (max a b) (min a b) 257).symm]
  have hd : 1 ≤ max a b - min a b := by omega
  refine Nat.div_pos ?_ (by norm_num)
  nlinarith

lemma nrgba16_alpha255 (v : Nat) : nrgba16 v 255 = v * 257 := by
  unfold nrgba16
  exact Nat.mul_div_cancel _ (by norm_num)

/-- Two fully opaque colors differing in some of R, G, B have a strictly
positive drawPaletted distance. -/
lemma colorDist_pos (a b : Color) (ha : a.A = 255) (hb : b.A = 255)
    (hne : a.R ≠ b.R ∨ a.G ≠ b.G ∨ a.B ≠ b.B) : 0 < colorDist a b := by
  unfold colorDist
  rw [ha, hb, nrgba16_alpha255, nrgba16_alpha255, nrgba16_alpha255, nrgba16_alpha255,
    nrgba16_alpha255, nrgba16_alpha255]
  rcases hne with h | h | h
  · have := sqDiff_pos_of_scaled _ _ h
    omega
  · have := sqDiff_pos_of_scaled _ _ h
    omega
  · have := sqDiff_pos_of_scaled _ _ h
    omega

/-- A best distance of zero is never displaced. -/
lemma paletteIndexAux_zero (c : Color) : ∀ (l : List Color) (i b : Nat),
    paletteIndexAux c l i b 0 = b := by
  intro l
  induction l with
  | nil =>
    intro i b
    rfl
  | cons q l' ih =>
    intro i b
    simp only [paletteIndexAux]
    rw [if_neg (Nat.not_lt_zero _)]
    exact ih _ _

/-- The scan selects the position of a zero-distance entry preceded only by
positive-distance entries, whatever came before the scan. -/
lemma paletteIndexAux_mid (c c' : Color) (l2 : List Color) (hc' : colorDist c' c = 0) :
    ∀ (l1 : List Color) (i b d : Nat), 0 < d → (∀ q ∈ l1, 0 < colorDist q c) →
      paletteIndexAux c (l1 ++ c' :: l2) i b d = i + l1.length := by
  intro l1
  induction l1 with
  | nil =>
    intro i b d hd _
    simp only [List.nil_append, paletteIndexAux, hc']
    rw [if_pos hd, paletteIndexAux_zero]
    simp
  | cons q l1' ih =>
    intro i b d hd hl
    have hq : 0 < colorDist q c := hl q (List.mem_cons_self _ _)
    have hrest : ∀ r ∈ l1', 0 < colorDist r c :=
      fun r hr => hl r (List.mem_cons_of_mem _ hr)
    simp only [List.cons_append, paletteIndexAux, List.append_eq]
    by_cases hlt : colorDist q c < d
    · rw [if_pos hlt, ih (i + 1) i (colorDist q c) hq hrest]
      simp [List.length_cons]
      omega
    · rw [if_neg hlt, ih (i + 1) b d hd hrest]
      simp [List.length_cons]
      omega

/-- drawPaletted recovers the exact index of a palette entry whenever every
other entry is at positive distance from it. -/
lemma paletteIndex_of_unique (pal : List Color) (j : Nat) (hj : j < pal.length)
    (huniq : ∀ k, k < pal.length → k ≠ j →
      0 < colorDist (pal.getD k d0) (pal.getD j d0)) :
    paletteIndex pal (pal.getD j d0) = j := by
  cases pal with
  | nil => simp at hj
  | cons p0 rest =>
    cases j with
    | zero =>
      simp only [List.getD_cons_zero]
      show paletteIndexAux p0 rest 1 0 (colorDist p0 p0) = 0
      rw [colorDist_self]
      exact paletteIndexAux_zero p0 rest 1 0
    | succ j' =>
      have hj' : j' < rest.length := by
        simpa using hj
      have hc : (p0 :: rest).getD (j' + 1) d0 = rest.getD j' d0 := by
        simp [List.getD_cons_succ]
      have h0 : 0 < colorDist p0 (rest.getD j' d0) := by
        have := huniq 0 (by omega) (by omega)
        rw [List.getD_cons_zero] at this
        rw [← hc]
        exact this
      have hdecomp : rest = rest.take j' ++ rest.getD j' d0 :: rest.drop (j' + 1) := by
        conv_lhs => rw [← List.take_append_drop j' rest]
        rw [List.drop_eq_getElem_cons hj', List.getD_eq_getElem rest d0 hj']
      have htake : ∀ q ∈ rest.take j', 0 < colorDist q (rest.getD j' d0) := by
        intro q hqmem
        obtain ⟨m, hm, hqm⟩ := List.mem_iff_getElem.mp hqmem
        have hmj : m < j' := by
          have := hm
          simp [List.length_take] at this
          omega
        have hmr : m < rest.length := by omega
        have hq1 : q = rest[m] := by
          rw [← hqm, List.getElem_take]
        have := huniq (m + 1) (by simpa using Nat.succ_lt_succ hmr) (by omega)
        rw [hc, List.getD_cons_succ, List.getD_eq_getElem rest d0 hmr] at this
        rw [hq1]
        exact this
      rw [hc]
      show paletteIndexAux (rest.getD j' d0) rest 1 0
        (colorDist p0 (rest.getD j' d0)) = j' + 1
      set c := rest.getD j' d0 with hcdef
      rw [hdecomp,
        paletteIndexAux_mid c c (rest.drop (j' + 1)) (colorDist_self c)
          (rest.take j') 1 0 (colorDist p0 c) h0 htake]
      simp [List.length_take]
      omega

/-- Over a palette of pairwise RGB-distinct opaque colors, drawPaletted
maps each palette entry back to its own index. -/
lemma paletteIndex_getD (pal : List Color)
    (hA : ∀ c ∈ pal, c.A = 255)
    (hdist : pal.Pairwise (fun a b => a.R ≠ b.R ∨ a.G ≠ b.G ∨ a.B ≠ b.B))
    (jv : Nat) (hjv : jv < pal.length) :
    paletteIndex pal (pal.getD jv d0) = jv := by
  apply paletteIndex_of_unique pal jv hjv
  intro k hk hkj
  rw [List.getD_eq_getElem pal d0 hk, List.getD_eq_getElem pal d0 hjv]
  have hAk : pal[k].A = 255 := hA _ (List.getElem_mem hk)
  have hAj : pal[jv].A = 255 := hA _ (List.getElem_mem hjv)
  rcases Nat.lt_or_ge k jv with hlt | hge
  · exact colorDist_pos _ _ hAk hAj
      ((List.pairwise_iff_getElem.mp hdist) k jv hk hjv hlt)
  · have hlt2 : jv < k := by omega
    have hr := (List.pairwise_iff_getElem.mp hdist) jv k hjv hk hlt2
    refine colorDist_pos _ _ hAk hAj ?_
    rcases hr with h | h | h
    · exact .inl (Ne.symm h)
    · exact .inr (.inl (Ne.symm h))
    · exact .inr (.inr (Ne.symm h))

/-- Lookup through a map over List.range. -/
lemma getD_range_map {β : Type} (f : Nat → β) (n k : Nat) (e : β) (hk : k < n) :
    ((List.range n).map f).getD k e = f k := by
  rw [List.getD_eq_getElem _ e (by simpa using hk), List.getElem_map, List.getElem_range]

/-- The clamped nearest-neighbor source coordinate stays inside the source. -/
lemma nnSrc_lt (src dst x : Nat) (h : 0 < src) : nnSrc src dst x < src := by
  unfold nnSrc
  omega

/-! Claim theorems, witnesses and the counterexample -/

/-- C8.  When no recolor palette is configured, recolor returns the very
image value it was given, for every input image. -/
theorem recolor_noop (pal : List Color) (img : Image) :
    recolor pal [] img = img := by
  simp [recolor]

/-- C5.  The recolor mapper compares only the R, G, B channels of a pixel
color (alpha ignored) against the original palette by exact equality, and
substitutes the recolor entry at the first matching index, with the own
alpha of that entry included; when no entry matches, it silently substitutes the first
recolor entry. -/
theorem recolor_matching_rule (pal recol : List Color) (c : Color) :
    (∀ a, getRecolor pal recol ⟨c.R, c.G, c.B, a⟩ = getRecolor pal recol c) ∧
    (∀ j, j < pal.length →
      (∀ k, k < j → rgbMatch (pal.getD k d0) c = false) →
      rgbMatch (pal.getD j d0) c = true →
      getRecolor pal recol c = recol.getD j d0) ∧
    ((∀ pc ∈ pal, rgbMatch pc c = false) →
      getRecolor pal recol c = recol.getD 0 d0) := by
  refine ⟨?_, ?_, ?_⟩
  · intro a
    unfold getRecolor
    rw [findPalIdx_rgb pal ⟨c.R, c.G, c.B, a⟩ c rfl rfl rfl]
  · intro j hj hbefore hmatch
    unfold getRecolor
    rw [findPalIdx_first pal c j hj hbefore hmatch]
  · intro h
    unfold getRecolor
    rw [findPalIdx_none pal c h]

/-- C5 witness: a concrete palette, recolor palette and pixel color; the
match at index 1 is found regardless of the alpha of the pixel, and the recolor
entry is substituted with its own alpha 50; an unmatched color falls back
to the first recolor entry. -/
theorem recolor_matching_rule_witness :
    getRecolor [⟨10, 20, 30, 255⟩, ⟨1, 2, 3, 255⟩] [⟨5, 6, 7, 100⟩, ⟨8, 9, 10, 50⟩]
        ⟨1, 2, 3, 77⟩ = ⟨8, 9, 10, 50⟩ ∧
    getRecolor [⟨10, 20, 30, 255⟩, ⟨1, 2, 3, 255⟩] [⟨5, 6, 7, 100⟩, ⟨8, 9, 10, 50⟩]
        ⟨200, 200, 200, 0⟩ = ⟨5, 6, 7, 100⟩ := by
  constructor
  · have h := (recolor_matching_rule [⟨10, 20, 30, 255⟩, ⟨1, 2, 3, 255⟩]
      [⟨5, 6, 7, 100⟩, ⟨8, 9, 10, 50⟩] ⟨1, 2, 3, 77⟩).2.1 1 (by decide)
      (by decide) (by decide)
    simpa using h
  · have h := (recolor_matching_rule [⟨10, 20, 30, 255⟩, ⟨1, 2, 3, 255⟩]
      [⟨5, 6, 7, 100⟩, ⟨8, 9, 10, 50⟩] ⟨200, 200, 200, 0⟩).2.2 (by decide)
    simpa using h

/-- C4.  Translation of the user loop count into the stored GIF loop field:
0 stays 0 (infinite), 1 becomes the sentinel -1 (do not repeat), and every
value above 1 is decremented by one. -/
theorem loopcount_translation :
    gifLoopCount 0 = 0 ∧ gifLoopCount 1 = -1 ∧
    ∀ n, 1 < n → gifLoopCount n = (n : Int) - 1 := by
  refine ⟨by decide, by decide, ?_⟩
  intro n hn
  have h1 : n ≠ 1 := by omega
  have h0 : n ≠ 0 := by omega
  simp [gifLoopCount, h1, h0]

/-- C4 witness: the user value 5 is stored as 4. -/
theorem loopcount_translation_witness : gifLoopCount 5 = 4 := by
  have h := loopcount_translation.2.2 5 (by omega)
  rw [h]
  decide

/-- Characterization of the successful outcomes of preProcess. -/
lemma preProcess_ok (pal recol : List Color) (rs : Bool) (u : Nat) (cfg : Config) :
    preProcess pal recol rs u = .ok cfg ↔
      (2 ≤ pal.length ∧ ¬(rs = true ∧ recol.length ≠ pal.length) ∧
        cfg = ⟨pal, if rs then recol else [], if u = 0 then 1 else u,
          decide ((if rs then recol else []).length ≠ 0 ∨
            1 < (if u = 0 then 1 else u))⟩) := by
  unfold preProcess
  by_cases h1 : pal.length < 2
  · rw [if_pos h1]
    constructor
    · intro h
      exact absurd h (by simp)
    · rintro ⟨hle, -, -⟩
      omega
  · rw [if_neg h1]
    by_cases h2 : rs = true ∧ recol.length ≠ pal.length
    · rw [if_pos h2]
      constructor
      · intro h
        exact absurd h (by simp)
      · rintro ⟨-, hno, -⟩
        exact absurd h2 hno
    · rw [if_neg h2]
      constructor
      · intro h
        injection h with h3
        exact ⟨by omega, h2, h3.symm⟩
      · rintro ⟨-, -, rfl⟩
        rfl

/-- C9.  After preProcess succeeds the upscale factor is at least 1: a zero
flag is silently normalized to 1 rather than rejected (the same inputs are
accepted with flag 0, yielding factor 1), and a nonzero flag is kept. -/
theorem upscale_normalization (pal recol : List Color) (rs : Bool) (u : Nat) :
    (∀ cfg, preProcess pal recol rs u = .ok cfg → 1 ≤ cfg.upscale) ∧
    (∀ cfg, preProcess pal recol rs 0 = .ok cfg → cfg.upscale = 1) ∧
    (∀ cfg, preProcess pal recol rs u = .ok cfg → u ≠ 0 → cfg.upscale = u) ∧
    (∀ cfg, preProcess pal recol rs u = .ok cfg →
      ∃ cfg0, preProcess pal recol rs 0 = .ok cfg0 ∧ cfg0.upscale = 1) := by
  refine ⟨?_, ?_, ?_, ?_⟩
  · intro cfg h
    rw [preProcess_ok] at h
    obtain ⟨-, -, rfl⟩ := h
    dsimp only
    split_ifs <;> omega
  · intro cfg h
    rw [preProcess_ok] at h
    obtain ⟨-, -, rfl⟩ := h
    rfl
  · intro cfg h hu
    rw [preProcess_ok] at h
    obtain ⟨-, -, rfl⟩ := h
    simp [hu]
  · intro cfg h
    rw [preProcess_ok] at h
    obtain ⟨hlen, hrec, -⟩ := h
    refine ⟨_, (preProcess_ok pal recol rs 0 _).mpr ⟨hlen, hrec, rfl⟩, rfl⟩

/-- C9 witness: with a valid two-color palette and no recolor flag, the
flag value 0 is accepted and normalized to factor 1, and flag 7 is kept. -/
theorem upscale_normalization_witness :
    (∀ cfg, preProcess [⟨0, 0, 0, 255⟩, ⟨255, 255, 255, 255⟩] [] false 0 = .ok cfg →
      cfg.upscale = 1) ∧
    (∀ cfg, preProcess [⟨0, 0, 0, 255⟩, ⟨255, 255, 255, 255⟩] [] false 7 = .ok cfg →
      cfg.upscale = 7) := by
  constructor
  · intro cfg h
    exact (upscale_normalization [⟨0, 0, 0, 255⟩, ⟨255, 255, 255, 255⟩] [] false 0).2.1 cfg h
  · intro cfg h
    exact (upscale_normalization [⟨0, 0, 0, 255⟩, ⟨255, 255, 255, 255⟩] [] false 7).2.2.1
      cfg h (by omega)

/-- C10.  preProcess rejects every palette with fewer than two parsed
colors, with the exact error text of subcommands.go line 113, and every
accepted configuration carries the full parsed palette, so no later stage
observes a palette of fewer than two entries. -/
theorem palette_size_validation (pal recol : List Color) (rs : Bool) (u : Nat) :
    (pal.length < 2 →
      preProcess pal recol rs u = .error "the palette must have at least two colors") ∧
    (∀ cfg, preProcess pal recol rs u = .ok cfg →
      2 ≤ cfg.palette.length ∧ cfg.palette = pal) := by
  constructor
  · intro h
    simp [preProcess, h]
  · intro cfg h
    rw [preProcess_ok] at h
    obtain ⟨hlen, -, rfl⟩ := h
    exact ⟨hlen, rfl⟩

/-- C10 witness: a one-color palette is rejected with the recorded message,
and a two-color palette is accepted carrying both colors. -/
theorem palette_size_validation_witness :
    preProcess [⟨9, 9, 9, 255⟩] [] false 1
        = .error "the palette must have at least two colors" ∧
    (∀ cfg, preProcess [⟨0, 0, 0, 255⟩, ⟨255, 255, 255, 255⟩] [] false 1 = .ok cfg →
      2 ≤ cfg.palette.length) := by
  constructor
  · exact (palette_size_validation [⟨9, 9, 9, 255⟩] [] false 1).1 (by decide)
  · intro cfg h
    exact ((palette_size_validation [⟨0, 0, 0, 255⟩, ⟨255, 255, 255, 255⟩] []
      false 1).2 cfg h).1

/-- C1.  The run is in animated mode exactly when there is more than one
input, the resolved output format is GIF, and the output target is not a
directory; in every other case the run writes one independent output per
input.  The decision is taken once, before any frame is processed. -/
theorem anim_mode_selection (pal recol : List Color) (upscale : Nat)
    (ditherF : Generic → Paletted) (outFormat : String) (outIsDir : Bool)
    (inputs : List (String × Generic)) (fps : ℚ) (fpsSet : Bool) (loop : Nat) :
    ((processImages pal recol upscale ditherF outFormat outIsDir inputs
        fps fpsSet loop).isAnimated = true
      ↔ (1 < inputs.length ∧ outFormat = "gif" ∧ outIsDir = false)) ∧
    (¬(1 < inputs.length ∧ outFormat = "gif" ∧ outIsDir = false) →
      processImages pal recol upscale ditherF outFormat outIsDir inputs fps fpsSet loop
        = .independent (inputs.map Prod.fst)) := by
  have hiff : isAnimGIF inputs.length outFormat outIsDir = true
      ↔ (1 < inputs.length ∧ outFormat = "gif" ∧ outIsDir = false) := by
    simp [isAnimGIF, and_assoc]
  constructor
  · by_cases h : isAnimGIF inputs.length outFormat outIsDir = true
    · unfold processImages
      rw [if_pos h]
      exact ⟨fun _ => hiff.mp h, fun _ => rfl⟩
    · unfold processImages
      rw [if_neg h]
      constructor
      · intro hc
        exact absurd hc (by simp [RunOutcome.isAnimated])
      · intro hc
        exact absurd (hiff.mpr hc) h
  · intro h
    have hb : ¬isAnimGIF inputs.length outFormat outIsDir = true := fun hb => h (hiff.mp hb)
    unfold processImages
    rw [if_neg hb]

/-- C3.  For every fps > 0 the per-frame delay is at least 1 centisecond,
the delay takes the recorded sample values at fps 100, 24 and 1, and in any
successful animated run every frame of the container receives the same one
delay value, derived once from the fps setting. -/
theorem delay_computation :
    (∀ fps : ℚ, 0 < fps → 1 ≤ gifDelay fps) ∧
    gifDelay 100 = 1 ∧ gifDelay 24 = 4 ∧ gifDelay 1 = 100 ∧
    (∀ (pal recol : List Color) (upscale : Nat) (ditherF : Generic → Paletted)
      (inputs : List (String × Generic)) (fps : ℚ) (fpsSet : Bool) (loop : Nat)
      (a : AnimGIF),
      runAnimated pal recol upscale ditherF inputs fps fpsSet loop = .ok a →
      a.delays = List.replicate inputs.length (gifDelay fps)) := by
  refine ⟨?_, ?_, ?_, ?_, ?_⟩
  · intro fps _
    exact le_max_right _ _
  · rw [gifDelay]
    norm_num [round_eq]
  · rw [gifDelay]
    norm_num [round_eq]
  · rw [gifDelay]
    norm_num [round_eq]
  · intro pal recol upscale ditherF inputs fps fpsSet loop a h
    unfold runAnimated at h
    split at h
    · exact absurd h (by simp)
    · split at h
      · injection h with h
        subst h
        rfl
      · split at h
        · exact absurd h (by simp)
        · split at h
          · exact absurd h (by simp)
          · injection h with h
            subst h
            simp [List.map_const', List.replicate_succ]

/-- C3 witness: fps 10 yields delay 10, at least 1, and a concrete
two-input animated run assigns that same delay to both frames. -/
theorem delay_computation_witness :
    1 ≤ gifDelay 10 ∧
    (AnimGIF.mk
      [⟨1, 1, [⟨0, 0, 0, 255⟩, ⟨255, 255, 255, 255⟩], []⟩,
        ⟨1, 1, [⟨0, 0, 0, 255⟩, ⟨255, 255, 255, 255⟩], []⟩]
      [gifDelay 10, gifDelay 10] (gifLoopCount 0)).delays
      = List.replicate 2 (gifDelay 10) := by
  constructor
  · exact delay_computation.1 10 (by norm_num)
  · exact delay_computation.2.2.2.2 [⟨0, 0, 0, 255⟩, ⟨255, 255, 255, 255⟩] [] 1
      (fun g => ⟨g.width, g.height, [⟨0, 0, 0, 255⟩, ⟨255, 255, 255, 255⟩], []⟩)
      [("a", ⟨1, 1, [d0]⟩), ("b", ⟨1, 1, [d0]⟩)] 10 true 0 _ rfl

/-- C6.  On a paletted image whose pixel indices all point into its palette
table, the fast path (rewriting only the palette table) and the slow path
(rewriting every pixel of the color buffer) produce color-equal images,
pixel for pixel. -/
theorem recolor_fast_slow_equiv (pal recol : List Color) (p : Paletted)
    (hlen : recol.length = pal.length) (hact : recol ≠ [])
    (hsize : p.pix.length = p.width * p.height)
    (hidx : ∀ k ∈ p.pix, k < p.palette.length) :
    ∀ x y, x < p.width → y < p.height →
      (recolorFast pal recol p).colorAt x y
        = (recolorSlow pal recol p.toGeneric).colorAt x y := by
  intro x y hx hy
  have hin : y * p.width + x < p.pix.length := by
    rw [hsize]
    exact grid_idx_lt hx hy
  have hj : p.pix.getD (y * p.width + x) 0 < p.palette.length :=
    hidx _ (getD_mem_of_lt p.pix _ 0 hin)
  unfold recolorFast recolorSlow Paletted.colorAt Generic.colorAt Paletted.toGeneric
  dsimp only
  rw [getD_map_of_lt (getRecolor pal recol) p.palette _ d0 d0 hj,
    getD_map_of_lt (getRecolor pal recol) _ _ d0 d0 (by simpa using hin),
    getD_map_of_lt (fun i => p.palette.getD i d0) p.pix _ 0 d0 hin]

/-- C6 witness: a concrete two-color paletted image where both paths agree
at pixel (1, 0). -/
theorem recolor_fast_slow_equiv_witness :
    (recolorFast [⟨0, 0, 0, 255⟩, ⟨255, 255, 255, 255⟩] [⟨40, 0, 0, 255⟩, ⟨0, 0, 99, 128⟩]
        ⟨2, 1, [⟨0, 0, 0, 255⟩, ⟨255, 255, 255, 255⟩], [0, 1]⟩).colorAt 1 0
      = (recolorSlow [⟨0, 0, 0, 255⟩, ⟨255, 255, 255, 255⟩] [⟨40, 0, 0, 255⟩, ⟨0, 0, 99, 128⟩]
        (Paletted.toGeneric ⟨2, 1, [⟨0, 0, 0, 255⟩, ⟨255, 255, 255, 255⟩], [0, 1]⟩)).colorAt 1 0 :=
  recolor_fast_slow_equiv [⟨0, 0, 0, 255⟩, ⟨255, 255, 255, 255⟩]
    [⟨40, 0, 0, 255⟩, ⟨0, 0, 99, 128⟩] ⟨2, 1, [⟨0, 0, 0, 255⟩, ⟨255, 255, 255, 255⟩], [0, 1]⟩
    (by decide) (by decide) (by decide) (by decide) 1 0 (by decide) (by decide)

/-- C2.  In animated mode every frame after frame 0 must have, after its
own post-processing (upscale included), the same bounds as the
post-processed frame 0: when all later inputs match, the run assembles an
animation; when some input does not match (the first offender shown), the
run stops with an error naming that input and the first input, so the
accumulated animation is never encoded.  The dithering capability is any
bounds- and palette-respecting function. -/
theorem anim_bounds_consistency (pal recol : List Color) (f : Nat)
    (ditherF : Generic → Paletted) (name0 : String) (g0 : Generic)
    (rest : List (String × Generic)) (fps : ℚ) (loop : Nat)
    (hdW : ∀ g, (ditherF g).width = g.width) (hdH : ∀ g, (ditherF g).height = g.height)
    (hdP : ∀ g, (ditherF g).palette = pal) (hpal : pal ≠ []) (hf : 0 < f)
    (hp0 : 0 < g0.width ∧ 0 < g0.height)
    (hpos : ∀ q ∈ rest, 0 < q.2.width ∧ 0 < q.2.height) :
    ((∀ q ∈ rest, postBounds pal recol f ditherF q.2 = postBounds pal recol f ditherF g0) →
      ∃ a, runAnimated pal recol f ditherF ((name0, g0) :: rest) fps true loop = .ok a) ∧
    (∀ l1 x l2, rest = l1 ++ x :: l2 →
      (∀ q ∈ l1, postBounds pal recol f ditherF q.2 = postBounds pal recol f ditherF g0) →
      postBounds pal recol f ditherF x.2 ≠ postBounds pal recol f ditherF g0 →
      runAnimated pal recol f ditherF ((name0, g0) :: rest) fps true loop
        = .error (.sizeMismatch x.1 name0)) := by
  obtain ⟨q0, hq0, -⟩ :=
    postProc_paletted_some pal recol f (ditherF g0) (by rw [hdP]; exact hpal)
  have hf0 : (q0.width, q0.height) = postBounds pal recol f ditherF g0 := by
    unfold postBounds
    rw [hq0]
    rfl
  constructor
  · intro hmatch
    obtain ⟨fs, hfs⟩ := animLoop_ok pal recol f ditherF hdW hdH hdP hpal hf
      name0 g0 hp0.1 hp0.2 q0 hf0 rest hpos hmatch
    refine ⟨⟨q0 :: fs, ((name0, g0) :: rest).map (fun _ => gifDelay fps),
      gifLoopCount loop⟩, ?_⟩
    simp [runAnimated, hq0, hfs, Image.asPaletted]
  · intro l1 x l2 hrest hmatch1 hx
    subst hrest
    have hxp : 0 < x.2.width ∧ 0 < x.2.height :=
      hpos x (List.mem_append.mpr (.inr (List.mem_cons_self _ _)))
    have herr := animLoop_err pal recol f ditherF hdW hdH hdP hpal hf
      name0 g0 hp0.1 hp0.2 q0 hf0 x hxp hx l2 l1
      (fun r hr => hpos r (List.mem_append.mpr (.inl hr))) hmatch1
    simp [runAnimated, hq0, herr, Image.asPaletted]

/-- C2 witness: three one-row inputs where the second has a different
width; with upscale 1 and an animated run the result is exactly the
size-mismatch error naming the second and the first input. -/
theorem anim_bounds_consistency_witness :
    runAnimated [⟨0, 0, 0, 255⟩, ⟨255, 255, 255, 255⟩] [] 1
      (fun g => ⟨g.width, g.height, [⟨0, 0, 0, 255⟩, ⟨255, 255, 255, 255⟩], []⟩)
      [("a", ⟨1, 1, [d0]⟩), ("b", ⟨2, 1, [d0, d0]⟩), ("c", ⟨1, 1, [d0]⟩)] 10 true 0
      = .error (.sizeMismatch "b" "a") :=
  (anim_bounds_consistency [⟨0, 0, 0, 255⟩, ⟨255, 255, 255, 255⟩] [] 1
    (fun g => ⟨g.width, g.height, [⟨0, 0, 0, 255⟩, ⟨255, 255, 255, 255⟩], []⟩)
    "a" ⟨1, 1, [d0]⟩ [("b", ⟨2, 1, [d0, d0]⟩), ("c", ⟨1, 1, [d0]⟩)] 10 0
    (fun _ => rfl) (fun _ => rfl) (fun _ => rfl) (by decide) (by decide)
    (by decide) (by decide)).2
    [] ("b", ⟨2, 1, [d0, d0]⟩) [("c", ⟨1, 1, [d0]⟩)] rfl (by simp) (by decide)

/-- C7.  Post-processing a paletted image with integer upscale factor
f > 1 yields a paletted image again: width f times the source width,
height derived from the bounds by exact aspect preservation (f times the
source height), built over the very same palette table with no new
entries; and, the palette being pairwise RGB-distinct opaque colors, every
palette index of each output pixel equals the index stored at its
nearest-neighbor source pixel. -/
theorem upscale_paletted_correct (p : Paletted) (f : Nat)
    (hf : 1 < f) (hW : 0 < p.width) (hH : 0 < p.height)
    (hsize : p.pix.length = p.width * p.height)
    (hidx : ∀ k ∈ p.pix, k < p.palette.length)
    (hA : ∀ c ∈ p.palette, c.A = 255)
    (hdist : p.palette.Pairwise (fun a b => a.R ≠ b.R ∨ a.G ≠ b.G ∨ a.B ≠ b.B)) :
    (∀ pal2, postProcImage pal2 [] f (.paletted p) = .paletted (upscaleP f p)) ∧
    (upscaleP f p).width = p.width * f ∧
    (upscaleP f p).height = f * p.height ∧
    (upscaleP f p).palette = p.palette ∧
    (∀ x y, x < p.width * f → y < f * p.height →
      (upscaleP f p).pix.getD (y * (p.width * f) + x) 0
        = p.pix.getD (nnSrc p.height (f * p.height) y * p.width
            + nnSrc p.width (p.width * f) x) 0) := by
  have hfpos : 0 < f := by omega
  have hrh : resizeHeight p.width p.height (p.width * f) = f * p.height :=
    resizeHeight_mul _ _ _ hW hH hfpos
  have hpalpos : 0 < p.palette.length := by
    have hpixpos : 0 < p.pix.length := by
      rw [hsize]
      exact Nat.mul_pos hW hH
    exact Nat.lt_of_le_of_lt (Nat.zero_le _) (hidx _ (getD_mem_of_lt _ 0 0 hpixpos))
  refine ⟨?_, rfl, ?_, rfl, ?_⟩
  · intro pal2
    have h1 : recolor pal2 [] (.paletted p) = .paletted p := by simp [recolor]
    simp only [postProcImage]
    rw [h1, if_neg (by omega : ¬f = 1)]
    show (if p.palette.length = 0 then Image.generic (upscaleG f p.toGeneric)
      else Image.paletted (upscaleP f p)) = Image.paletted (upscaleP f p)
    rw [if_neg (by omega : ¬p.palette.length = 0)]
  · show resizeHeight p.width p.height (p.width * f) = f * p.height
    exact hrh
  · intro x y hx hy
    have hdWpos : 0 < p.width * f := Nat.mul_pos hW hfpos
    have hk : y * (p.width * f) + x < (p.width * f) * (f * p.height) := grid_idx_lt hx hy
    have hsx : nnSrc p.width (p.width * f) x < p.width := nnSrc_lt _ _ _ hW
    have hsy : nnSrc p.height (f * p.height) y < p.height := nnSrc_lt _ _ _ hH
    have hsrc : nnSrc p.height (f * p.height) y * p.width
        + nnSrc p.width (p.width * f) x < p.pix.length := by
      rw [hsize]
      exact grid_idx_lt hsx hsy
    have hj : p.pix.getD (nnSrc p.height (f * p.height) y * p.width
        + nnSrc p.width (p.width * f) x) 0 < p.palette.length :=
      hidx _ (getD_mem_of_lt _ _ 0 hsrc)
    have hmod : (y * (p.width * f) + x) % (p.width * f) = x := by
      rw [Nat.add_comm, Nat.add_mul_mod_self_right x y (p.width * f), Nat.mod_eq_of_lt hx]
    have hdiv : (y * (p.width * f) + x) / (p.width * f) = y := by
      rw [Nat.add_comm, Nat.add_mul_div_right x y hdWpos, Nat.div_eq_of_lt hx, Nat.zero_add]
    simp only [upscaleP, rebuildPaletted, Paletted.resizeNearest, hrh]
    rw [getD_map_of_lt (paletteIndex p.palette) _ _ d0 0 (by simpa using hk),
      getD_range_map _ _ _ _ hk, hmod, hdiv]
    simp only [Paletted.colorAt]
    exact paletteIndex_getD p.palette hA hdist _ hj

/-- C7 witness: a 2-by-1 black-and-white image upscaled by 2 becomes a
4-by-2 paletted image over the same palette whose pixel at (2, 0) carries
the index of its nearest-neighbor source pixel. -/
theorem upscale_paletted_correct_witness :
    (upscaleP 2 ⟨2, 1, [⟨0, 0, 0, 255⟩, ⟨255, 255, 255, 255⟩], [1, 0]⟩).width = 4 ∧
    (upscaleP 2 ⟨2, 1, [⟨0, 0, 0, 255⟩, ⟨255, 255, 255, 255⟩], [1, 0]⟩).height = 2 ∧
    (upscaleP 2 ⟨2, 1, [⟨0, 0, 0, 255⟩, ⟨255, 255, 255, 255⟩], [1, 0]⟩).palette
      = [⟨0, 0, 0, 255⟩, ⟨255, 255, 255, 255⟩] ∧
    (upscaleP 2 ⟨2, 1, [⟨0, 0, 0, 255⟩, ⟨255, 255, 255, 255⟩], [1, 0]⟩).pix.getD (0 * 4 + 2) 0
      = ([1, 0] : List Nat).getD (nnSrc 1 2 0 * 2 + nnSrc 2 4 2) 0 := by
  have h := upscale_paletted_correct ⟨2, 1, [⟨0, 0, 0, 255⟩, ⟨255, 255, 255, 255⟩], [1, 0]⟩ 2
    (by decide) (by decide) (by decide) (by decide) (by decide) (by decide) (by decide)
  exact ⟨h.2.1, h.2.2.1, h.2.2.2.1, h.2.2.2.2 2 0 (by decide) (by decide)⟩

/-- C7 counterexample: with the duplicated palette [black, black] (length
two, accepted by preProcess) and one pixel holding index 1, upscaling by 2
produces pixels of palette index 0, not the source index 1: the
redraw into the rebuilt paletted image picks the first palette entry whose
color matches, so index equality fails for palettes with duplicate
colors. -/
theorem upscale_index_counterexample :
    (upscaleP 2 ⟨1, 1, [⟨0, 0, 0, 255⟩, ⟨0, 0, 0, 255⟩], [1]⟩).pix.getD (0 * 2 + 0) 0 = 0 ∧
    (⟨1, 1, [⟨0, 0, 0, 255⟩, ⟨0, 0, 0, 255⟩], [1]⟩ : Paletted).pix.getD
      (nnSrc 1 2 0 * 1 + nnSrc 1 2 0) 0 = 1 ∧
    (upscaleP 2 ⟨1, 1, [⟨0, 0, 0, 255⟩, ⟨0, 0, 0, 255⟩], [1]⟩).pix.getD (0 * 2 + 0) 0
      ≠ (⟨1, 1, [⟨0, 0, 0, 255⟩, ⟨0, 0, 0, 255⟩], [1]⟩ : Paletted).pix.getD
        (nnSrc 1 2 0 * 1 + nnSrc 1 2 0) 0 := by
  decide

/-- C1 witness: a single input with GIF format and a file target is not
animated and is written independently. -/
theorem anim_mode_selection_witness :
    processImages [] [] 1 (fun g => ⟨g.width, g.height, [], []⟩) "gif" false
        [("only", ⟨1, 1, [⟨0, 0, 0, 255⟩]⟩)] 10 true 0
      = .independent ["only"] := by
  have h := (anim_mode_selection [] [] 1 (fun g => ⟨g.width, g.height, [], []⟩)
    "gif" false [("only", ⟨1, 1, [⟨0, 0, 0, 255⟩]⟩)] 10 true 0).2 (by simp)
  simpa using h

end Didder
